import Mathlib

/-!
Shallow embedding of `src/rtc.c`, a virtual RTC kernel module.

The module keeps a single piece of state: `last_time` (a `ktime_t`, an
absolute wall-clock instant in nanoseconds) and `last_jiffies` (the value
of the host's free-running `unsigned long` tick counter at the moment
`last_time` was committed).  `update_time` folds the elapsed ticks into
`last_time` using wraparound-correct unsigned subtraction;
`virt_rtc_read_time` commits, reschedules the periodic timer and converts
the committed instant into the caller-facing `struct rtc_time` format;
`virt_rtc_set_time` overwrites the committed instant and re-bases the
committed tick; `virt_rtc_periodic_update` is the periodic timer callback.

Host-kernel helpers (`jiffies_to_nsecs`, `rtc_ktime_to_tm`,
`rtc_tm_to_ktime`, `rtc_valid_tm`, the RTC-class `set_time` wrapper) are
not part of this repository; they are modelled from the spec's interface
description (a fixed tick-to-duration conversion factor, and a
caller-facing calendar format with a representable range whose violation
is reported as `InvalidTime`, i.e. `-EINVAL`).
-/

namespace VirtRtc

/-- Bit width of the kernel `unsigned long` type holding the jiffies tick
counter (64-bit platform). -/
def BITS_PER_LONG : Nat := 64

/-- Modulus of `unsigned long` arithmetic: the tick counter and all
subtraction on it wrap modulo this value. -/
def ULONG_MOD : Nat := 2 ^ BITS_PER_LONG

/-- Nanoseconds per second. -/
def NSEC_PER_SEC : Nat := 1000000000

/-- Modelled from the spec: the host-provided fixed tick-to-duration
conversion factor, in nanoseconds per jiffy (HZ = 100, one tick = 10 ms,
matching the spec's concrete scenario). -/
def TICK_NSEC : Nat := 10000000

/-- Modelled from the spec: `jiffies_to_nsecs`, the host's conversion of a
tick-count difference into a duration in nanoseconds, using the fixed
conversion factor. -/
def jiffies_to_nsecs (j : Nat) : Nat := j * TICK_NSEC

/-- Unsigned subtraction `a - b` on `unsigned long` values: the wrapping
(modular) difference over the tick counter's fixed bit width. -/
def ulong_sub (a b : Nat) : Nat :=
  (ULONG_MOD + a % ULONG_MOD - b % ULONG_MOD) % ULONG_MOD

/-- Host helper `ktime_add_ns`: advance an absolute instant (nanoseconds)
by a duration in nanoseconds. -/
def ktime_add_ns (kt : Int) (ns : Nat) : Int := kt + (ns : Int)

/-- The module's `state`: the committed wall-clock instant (`ktime_t`, in
nanoseconds) and the tick-counter value at which it was committed. -/
structure ClockState where
  last_time : Int
  last_jiffies : Nat
deriving Repr, DecidableEq

/-- The observable system state: the clock state plus the expiry (in
jiffies) of the pending periodic timer. -/
structure Sys where
  state : ClockState
  timer_expires : Nat
deriving Repr, DecidableEq

/-- Host helper `mod_timer`: reprogram the pending timer to fire at the
given jiffies value. -/
def mod_timer (sys : Sys) (expires : Nat) : Sys :=
  { sys with timer_expires := expires % ULONG_MOD }

/-- `reset_timer` from `src/rtc.c` lines 19-25: reschedule the periodic
timer for `state.last_jiffies - 1` (unsigned arithmetic), one tick before
the counter would wrap back to the committed value. -/
def reset_timer (sys : Sys) : Sys :=
  mod_timer sys (ulong_sub sys.state.last_jiffies 1)

/-- `update_time` from `src/rtc.c` lines 27-38 (the commit operation):
read the current jiffies, take the wrapping difference to the committed
tick, fold the corresponding duration into `last_time` and record the new
committed tick. -/
def update_time (jiffies : Nat) (s : ClockState) : ClockState :=
  let ljiffies := jiffies % ULONG_MOD
  let delta := ulong_sub ljiffies s.last_jiffies
  { last_time := ktime_add_ns s.last_time (jiffies_to_nsecs delta)
    last_jiffies := ljiffies }

/-- `update_time` lifted to the full system state (it touches only the
clock state). -/
def update_time_sys (jiffies : Nat) (sys : Sys) : Sys :=
  { sys with state := update_time jiffies sys.state }

/-- `virt_rtc_periodic_update` from `src/rtc.c` lines 40-44: the periodic
timer callback; commits, then reschedules itself. -/
def virt_rtc_periodic_update (jiffies : Nat) (sys : Sys) : Sys :=
  reset_timer (update_time_sys jiffies sys)

/-- Modelled from the spec: the caller-facing calendar time format
`struct rtc_time`, represented by the wall-clock instant it denotes in
whole seconds since the epoch (the broken-down calendar fields determine,
and are determined by, this value). -/
structure RtcTime where
  secs : Int
deriving Repr, DecidableEq

/-- Modelled from the spec: the largest instant, in whole seconds, inside
the caller-facing format's representable calendar range (the last whole
second representable in the signed 64-bit nanosecond instant type). -/
def RTC_SECS_MAX : Int := (2 ^ 63 - 1) / 1000000000

/-- Modelled from the spec: `rtc_valid_tm`, the host's range check on the
caller-facing format. Returns 0 when the instant lies inside the
representable calendar range and `-EINVAL` (= -22, the `InvalidTime`
error) otherwise. -/
def rtc_valid_tm (tm : RtcTime) : Int :=
  if 0 ≤ tm.secs ∧ tm.secs ≤ RTC_SECS_MAX then 0 else -22

/-- Modelled from the spec: `rtc_ktime_to_tm`, the host's conversion of a
nanosecond instant to the caller-facing format; the nanosecond value is
split into whole seconds plus a nonnegative sub-second remainder and a
positive remainder rounds the seconds up. -/
def rtc_ktime_to_tm (kt : Int) : RtcTime :=
  let tv_sec := kt / (NSEC_PER_SEC : Int)
  let tv_nsec := kt % (NSEC_PER_SEC : Int)
  ⟨if 0 < tv_nsec then tv_sec + 1 else tv_sec⟩

/-- Modelled from the spec: `rtc_tm_to_ktime`, the host's conversion of a
caller-facing instant to the nanosecond instant type. -/
def rtc_tm_to_ktime (tm : RtcTime) : Int := tm.secs * (NSEC_PER_SEC : Int)

/-- `virt_rtc_read_time` from `src/rtc.c` lines 46-62: commit, reschedule
the periodic timer, convert the committed instant to the caller-facing
format, and return its range-check result as the status code. Returns
(status, written `tm`, new system state). -/
def virt_rtc_read_time (jiffies : Nat) (sys : Sys) : Int × RtcTime × Sys :=
  let sys1 := reset_timer (update_time_sys jiffies sys)
  let tm := rtc_ktime_to_tm sys1.state.last_time
  (rtc_valid_tm tm, tm, sys1)

/-- `virt_rtc_set_time` from `src/rtc.c` lines 64-76: overwrite the
committed instant with the supplied one, re-base the committed tick to the
current jiffies, and return 0. -/
def virt_rtc_set_time (jiffies : Nat) (tm : RtcTime) (sys : Sys) : Int × Sys :=
  (0, { sys with state := { last_time := rtc_tm_to_ktime tm
                            last_jiffies := jiffies % ULONG_MOD } })

/-- Modelled from the spec: the caller-facing `set_time` entry point (the
host RTC framework's wrapper around the driver operation), which
range-checks the supplied instant and fails with `InvalidTime` without
invoking the driver when it is out of range. -/
def rtc_set_time (jiffies : Nat) (tm : RtcTime) (sys : Sys) : Int × Sys :=
  if rtc_valid_tm tm = 0 then virt_rtc_set_time jiffies tm sys
  else (rtc_valid_tm tm, sys)

/-- The wall-clock instant represented by a clock state when the live tick
counter reads `jiffies`: the committed instant plus the duration of the
wrapping tick difference since the commit. -/
def represented_time (jiffies : Nat) (s : ClockState) : Int :=
  s.last_time + (jiffies_to_nsecs (ulong_sub jiffies s.last_jiffies) : Int)

/-- Results of a sequence of `read_time` calls: the first call happens
with the tick counter at `j`, and each entry of `ds` advances the counter
before the next call. Returns the instants (in the caller-facing seconds
representation) written by the successive calls. -/
def readResults : Nat → Sys → List Nat → List Int
  | j, sys, [] => [((virt_rtc_read_time j sys).2.1).secs]
  | j, sys, d :: ds =>
      let r := virt_rtc_read_time j sys
      (r.2.1).secs :: readResults (j + d) r.2.2 ds

/-! ### Helper lemmas -/

/-- The seconds value written by `rtc_ktime_to_tm`, scaled back to
nanoseconds, overshoots the instant by less than one second and never
undershoots. -/
theorem rtc_ktime_to_tm_bracket (kt : Int) :
    kt ≤ (rtc_ktime_to_tm kt).secs * (NSEC_PER_SEC : Int) ∧
      (rtc_ktime_to_tm kt).secs * (NSEC_PER_SEC : Int) < kt + NSEC_PER_SEC := by
  have hq : (0 : Int) < (NSEC_PER_SEC : Int) := by
    simp [NSEC_PER_SEC]
  have hmod₀ : 0 ≤ kt % (NSEC_PER_SEC : Int) := Int.emod_nonneg kt (by omega)
  have hmod₁ : kt % (NSEC_PER_SEC : Int) < (NSEC_PER_SEC : Int) :=
    Int.emod_lt_of_pos kt hq
  have hdiv : (NSEC_PER_SEC : Int) * (kt / (NSEC_PER_SEC : Int)) +
      kt % (NSEC_PER_SEC : Int) = kt := Int.ediv_add_emod kt (NSEC_PER_SEC : Int)
  simp only [rtc_ktime_to_tm]
  by_cases hpos : 0 < kt % (NSEC_PER_SEC : Int)
  · simp only [hpos, if_pos]
    constructor
    · nlinarith [hdiv, hmod₁]
    · nlinarith [hdiv, hpos]
  · simp only [hpos, if_neg, if_false]
    have hz : kt % (NSEC_PER_SEC : Int) = 0 := le_antisymm (by omega) hmod₀
    constructor
    · nlinarith [hdiv, hz]
    · nlinarith [hdiv, hz, hq]

/-- Converting a larger instant to the caller-facing format yields a
no-smaller seconds value. -/
theorem rtc_ktime_to_tm_mono {kt kt' : Int} (h : kt ≤ kt') :
    (rtc_ktime_to_tm kt).secs ≤ (rtc_ktime_to_tm kt').secs := by
  have h₁ := rtc_ktime_to_tm_bracket kt
  have h₂ := rtc_ktime_to_tm_bracket kt'
  nlinarith [h₁.1, h₁.2, h₂.1, h₂.2]

/-- Converting an exact number of seconds to the caller-facing format
recovers that number of seconds. -/
theorem rtc_ktime_to_tm_mul (s : Int) :
    rtc_ktime_to_tm (s * (NSEC_PER_SEC : Int)) = ⟨s⟩ := by
  have hq : ((NSEC_PER_SEC : Nat) : Int) ≠ 0 := by
    simp [NSEC_PER_SEC]
  simp [rtc_ktime_to_tm, Int.mul_emod_left, Int.mul_ediv_cancel _ hq]

/-- The commit never decreases the committed instant. -/
theorem update_time_le (jiffies : Nat) (s : ClockState) :
    s.last_time ≤ (update_time jiffies s).last_time := by
  simp only [update_time, ktime_add_ns]
  have : (0 : Int) ≤ (jiffies_to_nsecs (ulong_sub (jiffies % ULONG_MOD) s.last_jiffies) : Int) := by
    exact_mod_cast Nat.zero_le _
  omega

/-- After a commit at tick `j`, the committed tick is `j` reduced to the
counter's width. -/
theorem update_time_last_jiffies (jiffies : Nat) (s : ClockState) :
    (update_time jiffies s).last_jiffies = jiffies % ULONG_MOD := rfl

/-- The counter modulus as a numeral. -/
theorem ULONG_MOD_eq : ULONG_MOD = 18446744073709551616 := by
  norm_num [ULONG_MOD, BITS_PER_LONG]

/-- The wrapping difference of a value with itself is zero. -/
theorem ulong_sub_self (a : Nat) : ulong_sub a a = 0 := by
  simp only [ulong_sub, ULONG_MOD_eq]
  omega

/-- The wrapping difference recovers the true advance whenever the advance
is less than one full wraparound period. -/
theorem ulong_sub_add (lj d : Nat) (hlj : lj < ULONG_MOD) (hd : d < ULONG_MOD) :
    ulong_sub ((lj + d) % ULONG_MOD) lj = d := by
  rw [ULONG_MOD_eq] at hlj hd
  simp only [ulong_sub, ULONG_MOD_eq]
  omega

/-! ### Claim theorems -/

/-- C6: every invocation of the periodic callback first performs the
commit and then reschedules its own next firing for the tick-counter
value `committed_tick - 1` (in wrapping counter arithmetic). -/
theorem c6_resync_deadline (jiffies : Nat) (sys : Sys) :
    (virt_rtc_periodic_update jiffies sys).state = update_time jiffies sys.state ∧
      (virt_rtc_periodic_update jiffies sys).timer_expires =
        ulong_sub (update_time jiffies sys.state).last_jiffies 1 := by
  constructor
  · rfl
  · simp only [virt_rtc_periodic_update, reset_timer, mod_timer, update_time_sys,
      ulong_sub, ULONG_MOD_eq]
    omega

/-- C7: running the commit twice with the same current tick-counter value
yields exactly the same state as running it once; the second run computes
a zero elapsed tick count and changes nothing. -/
theorem c7_commit_idempotent (jiffies : Nat) (s : ClockState) :
    update_time jiffies (update_time jiffies s) = update_time jiffies s ∧
      ulong_sub (jiffies % ULONG_MOD) (update_time jiffies s).last_jiffies = 0 := by
  have hz : ulong_sub (jiffies % ULONG_MOD) (update_time jiffies s).last_jiffies = 0 := by
    rw [update_time_last_jiffies]
    exact ulong_sub_self _
  refine ⟨?_, hz⟩
  show update_time jiffies (update_time jiffies s) = update_time jiffies s
  simp only [update_time, ktime_add_ns]
  have hlj : (jiffies % ULONG_MOD) % ULONG_MOD = jiffies % ULONG_MOD :=
    Nat.mod_mod_of_dvd jiffies dvd_rfl
  have hd : ulong_sub (jiffies % ULONG_MOD)
      (jiffies % ULONG_MOD) = 0 := ulong_sub_self _
  simp only [ulong_sub] at hd ⊢
  simp only [hlj] at hd ⊢
  simp [hd, jiffies_to_nsecs]

/-- C8: the represented wall-clock time `committed_time +
ticks_to_duration(current_tick - committed_tick)` (wrapping subtraction
over the counter's width) is unchanged by running the commit at the
current tick. -/
theorem c8_invariant_preserved (jiffies : Nat) (s : ClockState) :
    represented_time jiffies (update_time jiffies s) = represented_time jiffies s := by
  simp only [represented_time, update_time, ktime_add_ns]
  have h1 : ulong_sub jiffies (jiffies % ULONG_MOD) = 0 := by
    simp only [ulong_sub, Nat.mod_mod_of_dvd jiffies dvd_rfl, ULONG_MOD_eq]
    omega
  have h2 : ulong_sub jiffies s.last_jiffies = ulong_sub (jiffies % ULONG_MOD) s.last_jiffies := by
    simp only [ulong_sub, Nat.mod_mod_of_dvd jiffies dvd_rfl]
  rw [h1]
  simp only [jiffies_to_nsecs, Nat.zero_mul, Nat.cast_zero, add_zero]
  rw [h2]

/-- C9: `read_time` writes the caller-facing conversion of the committed
instant unmodified (never clamped), succeeds exactly when that instant
lies inside the representable calendar range, and otherwise fails with
`InvalidTime` (`-EINVAL`). -/
theorem c9_read_time_error (jiffies : Nat) (sys : Sys) :
    (virt_rtc_read_time jiffies sys).2.1 =
        rtc_ktime_to_tm (update_time jiffies sys.state).last_time ∧
      ((virt_rtc_read_time jiffies sys).1 = 0 ↔
        (0 ≤ (virt_rtc_read_time jiffies sys).2.1.secs ∧
          (virt_rtc_read_time jiffies sys).2.1.secs ≤ RTC_SECS_MAX)) ∧
      ((virt_rtc_read_time jiffies sys).1 ≠ 0 →
        (virt_rtc_read_time jiffies sys).1 = -22) := by
  refine ⟨rfl, ?_, ?_⟩
  · simp only [virt_rtc_read_time, rtc_valid_tm]
    by_cases h : 0 ≤ (rtc_ktime_to_tm (reset_timer (update_time_sys jiffies sys)).state.last_time).secs ∧
        (rtc_ktime_to_tm (reset_timer (update_time_sys jiffies sys)).state.last_time).secs ≤ RTC_SECS_MAX
    · simp [h]
    · simp [h]
  · simp only [virt_rtc_read_time, rtc_valid_tm]
    by_cases h : 0 ≤ (rtc_ktime_to_tm (reset_timer (update_time_sys jiffies sys)).state.last_time).secs ∧
        (rtc_ktime_to_tm (reset_timer (update_time_sys jiffies sys)).state.last_time).secs ≤ RTC_SECS_MAX
    · simp [h]
    · simp [h]

/-- Reducing the minuend modulo the counter width does not change the
wrapping difference. -/
theorem ulong_sub_mod_left (a b : Nat) :
    ulong_sub (a % ULONG_MOD) b = ulong_sub a b := by
  simp only [ulong_sub, Nat.mod_mod_of_dvd a dvd_rfl]

/-- C10 counterexample: `read_time` does mutate state beyond `ClockState`
at a concrete input — it reprograms the pending periodic timer, changing
its expiry from 0 to 4. -/
theorem c10_counterexample :
    (virt_rtc_read_time 5 ⟨⟨0, 5⟩, 0⟩).2.2.timer_expires ≠
      (⟨⟨0, 5⟩, 0⟩ : Sys).timer_expires := by
  show ulong_sub 5 1 % ULONG_MOD ≠ 0
  rw [ULONG_MOD_eq]
  simp only [ulong_sub, ULONG_MOD_eq]
  omega

/-- C10 amended: `set_time` mutates only `ClockState` (the pending timer
is untouched), while `read_time` mutates `ClockState` and additionally
reschedules the periodic timer for `committed_tick - 1`; neither touches
anything else. -/
theorem c10_frame (jiffies : Nat) (tm : RtcTime) (sys : Sys) :
    (virt_rtc_set_time jiffies tm sys).2.timer_expires = sys.timer_expires ∧
      (virt_rtc_read_time jiffies sys).2.2.state = update_time jiffies sys.state ∧
      (virt_rtc_read_time jiffies sys).2.2.timer_expires =
        ulong_sub (update_time jiffies sys.state).last_jiffies 1 := by
  refine ⟨rfl, rfl, ?_⟩
  show ulong_sub (update_time jiffies sys.state).last_jiffies 1 % ULONG_MOD = _
  simp only [ulong_sub, ULONG_MOD_eq]
  omega

/-- C1: an advance `d` that crosses the wraparound boundary but is
strictly less than one full period is exactly recovered by the wrapping
subtraction, so the commit folds in precisely `ticks_to_duration d` and
the committed instant (hence the value `read_time` reports) never
regresses. -/
theorem c1_wraparound_transparency (s : ClockState) (d : Nat)
    (hlj : s.last_jiffies < ULONG_MOD) (hd0 : 0 < d) (hdM : d < ULONG_MOD)
    (hcross : ULONG_MOD ≤ s.last_jiffies + d) :
    ulong_sub ((s.last_jiffies + d) % ULONG_MOD) s.last_jiffies = d ∧
      (update_time ((s.last_jiffies + d) % ULONG_MOD) s).last_time =
        s.last_time + (jiffies_to_nsecs d : Int) ∧
      (rtc_ktime_to_tm s.last_time).secs ≤
        (rtc_ktime_to_tm (update_time ((s.last_jiffies + d) % ULONG_MOD) s).last_time).secs := by
  have hrec := ulong_sub_add s.last_jiffies d hlj hdM
  refine ⟨hrec, ?_, rtc_ktime_to_tm_mono (update_time_le _ _)⟩
  simp only [update_time, ktime_add_ns, ulong_sub_mod_left, hrec]

/-- C1 witness: a concrete boundary-crossing advance of 5 ticks from
3 ticks before the wraparound boundary. -/
theorem c1_wraparound_transparency_witness :
    (18446744073709551613 < ULONG_MOD ∧ 0 < 5 ∧ 5 < ULONG_MOD ∧
        ULONG_MOD ≤ 18446744073709551613 + 5) ∧
      (ulong_sub ((18446744073709551613 + 5) % ULONG_MOD) 18446744073709551613 = 5 ∧
        (update_time ((18446744073709551613 + 5) % ULONG_MOD)
            ⟨1234, 18446744073709551613⟩).last_time =
          (1234 : Int) + (jiffies_to_nsecs 5 : Int) ∧
        (rtc_ktime_to_tm 1234).secs ≤
          (rtc_ktime_to_tm (update_time ((18446744073709551613 + 5) % ULONG_MOD)
            ⟨1234, 18446744073709551613⟩).last_time).secs) :=
  ⟨⟨by rw [ULONG_MOD_eq]; omega, by omega, by rw [ULONG_MOD_eq]; omega,
      by rw [ULONG_MOD_eq]; omega⟩,
    c1_wraparound_transparency ⟨1234, 18446744073709551613⟩ 5
      (by show (18446744073709551613 : Nat) < ULONG_MOD; rw [ULONG_MOD_eq]; omega)
      (by omega) (by rw [ULONG_MOD_eq]; omega)
      (by show ULONG_MOD ≤ 18446744073709551613 + 5; rw [ULONG_MOD_eq]; omega)⟩

/-- C3: the caller-facing `set_time` range-checks its argument: an
out-of-range instant fails with `InvalidTime` (`-EINVAL`) leaving the
whole state unchanged, and an in-range instant succeeds. -/
theorem c3_set_time_range_check (jiffies : Nat) (tm : RtcTime) (sys : Sys) :
    (¬ (0 ≤ tm.secs ∧ tm.secs ≤ RTC_SECS_MAX) →
        (rtc_set_time jiffies tm sys).1 = -22 ∧ (rtc_set_time jiffies tm sys).2 = sys) ∧
      ((0 ≤ tm.secs ∧ tm.secs ≤ RTC_SECS_MAX) → (rtc_set_time jiffies tm sys).1 = 0) := by
  constructor
  · intro h
    simp [rtc_set_time, rtc_valid_tm, h]
  · intro h
    simp [rtc_set_time, rtc_valid_tm, h, virt_rtc_set_time]

/-- C3 witness: setting the out-of-range instant -5 s fails with -22 and
leaves the state unchanged; setting the in-range instant 100 s succeeds. -/
theorem c3_set_time_range_check_witness :
    ((rtc_set_time 3 ⟨-5⟩ ⟨⟨0, 0⟩, 0⟩).1 = -22 ∧
        (rtc_set_time 3 ⟨-5⟩ ⟨⟨0, 0⟩, 0⟩).2 = ⟨⟨0, 0⟩, 0⟩) ∧
      (rtc_set_time 3 ⟨100⟩ ⟨⟨0, 0⟩, 0⟩).1 = 0 :=
  ⟨(c3_set_time_range_check 3 ⟨-5⟩ ⟨⟨0, 0⟩, 0⟩).1 (by decide),
    (c3_set_time_range_check 3 ⟨100⟩ ⟨⟨0, 0⟩, 0⟩).2 (by decide)⟩

/-- C4: a successful `set_time(T)` followed immediately by `read_time`
with the tick counter unchanged succeeds and returns exactly `T`. -/
theorem c4_set_read_round_trip (jiffies : Nat) (tm : RtcTime) (sys : Sys)
    (h : rtc_valid_tm tm = 0) :
    (rtc_set_time jiffies tm sys).1 = 0 ∧
      (virt_rtc_read_time jiffies (rtc_set_time jiffies tm sys).2).1 = 0 ∧
      (virt_rtc_read_time jiffies (rtc_set_time jiffies tm sys).2).2.1 = tm := by
  have hr : 0 ≤ tm.secs ∧ tm.secs ≤ RTC_SECS_MAX := by
    by_contra hc
    simp [rtc_valid_tm, hc] at h
  have hset : rtc_set_time jiffies tm sys = virt_rtc_set_time jiffies tm sys := by
    simp [rtc_set_time, h]
  have hstate : (rtc_set_time jiffies tm sys).2.state =
      ⟨rtc_tm_to_ktime tm, jiffies % ULONG_MOD⟩ := by
    rw [hset]
    rfl
  have hdelta : ulong_sub (jiffies % ULONG_MOD) (jiffies % ULONG_MOD) = 0 :=
    ulong_sub_self _
  have hcommit : update_time jiffies (⟨rtc_tm_to_ktime tm, jiffies % ULONG_MOD⟩ : ClockState) =
      ⟨rtc_tm_to_ktime tm, jiffies % ULONG_MOD⟩ := by
    simp only [update_time, ktime_add_ns, ulong_sub_mod_left]
    rw [show ulong_sub jiffies (jiffies % ULONG_MOD) = 0 from ?_]
    · simp [jiffies_to_nsecs]
    · rw [show ulong_sub jiffies (jiffies % ULONG_MOD) =
          ulong_sub (jiffies % ULONG_MOD) (jiffies % ULONG_MOD) from
          (ulong_sub_mod_left jiffies (jiffies % ULONG_MOD)).symm]
      exact hdelta
  have htm : (virt_rtc_read_time jiffies (rtc_set_time jiffies tm sys).2).2.1 = tm := by
    show rtc_ktime_to_tm (update_time jiffies (rtc_set_time jiffies tm sys).2.state).last_time = tm
    rw [hstate, hcommit]
    show rtc_ktime_to_tm (rtc_tm_to_ktime tm) = tm
    rw [rtc_tm_to_ktime, rtc_ktime_to_tm_mul]
  refine ⟨by rw [hset]; rfl, ?_, htm⟩
  show rtc_valid_tm (virt_rtc_read_time jiffies (rtc_set_time jiffies tm sys).2).2.1 = 0
  rw [htm]
  exact h

/-- C4 witness: setting the in-range instant 4242 s at tick 77 and
reading back at the same tick succeeds and returns 4242 s. -/
theorem c4_set_read_round_trip_witness :
    rtc_valid_tm ⟨4242⟩ = 0 ∧
      ((rtc_set_time 77 ⟨4242⟩ ⟨⟨0, 0⟩, 0⟩).1 = 0 ∧
        (virt_rtc_read_time 77 (rtc_set_time 77 ⟨4242⟩ ⟨⟨0, 0⟩, 0⟩).2).1 = 0 ∧
        (virt_rtc_read_time 77 (rtc_set_time 77 ⟨4242⟩ ⟨⟨0, 0⟩, 0⟩).2).2.1 = ⟨4242⟩) :=
  ⟨by decide, c4_set_read_round_trip 77 ⟨4242⟩ ⟨⟨0, 0⟩, 0⟩ (by decide)⟩

/-- C2: with the tick counter advanced by `d` ticks between two `read_time`
calls (no intervening `set_time`, no wraparound), the committed instant
advances by exactly `ticks_to_duration d` nanoseconds, and the two
returned caller-facing instants differ by that duration to within one
second (the resolution of the caller-facing format). -/
theorem c2_accumulation (sys : Sys) (j1 d : Nat) (hw : j1 + d < ULONG_MOD) :
    (virt_rtc_read_time (j1 + d) (virt_rtc_read_time j1 sys).2.2).2.2.state.last_time =
        (virt_rtc_read_time j1 sys).2.2.state.last_time + (jiffies_to_nsecs d : Int) ∧
      (virt_rtc_read_time (j1 + d) (virt_rtc_read_time j1 sys).2.2).2.1.secs *
          (NSEC_PER_SEC : Int) <
        (virt_rtc_read_time j1 sys).2.1.secs * (NSEC_PER_SEC : Int) +
          (jiffies_to_nsecs d : Int) + (NSEC_PER_SEC : Int) ∧
      (virt_rtc_read_time j1 sys).2.1.secs * (NSEC_PER_SEC : Int) +
          (jiffies_to_nsecs d : Int) <
        (virt_rtc_read_time (j1 + d) (virt_rtc_read_time j1 sys).2.2).2.1.secs *
          (NSEC_PER_SEC : Int) + (NSEC_PER_SEC : Int) := by
  have hj1 : j1 < ULONG_MOD := by omega
  have hdM : d < ULONG_MOD := by omega
  have hmod : (j1 + d) % ULONG_MOD = j1 + d := Nat.mod_eq_of_lt hw
  have hdelta : ulong_sub (j1 + d) j1 = d := by
    have := ulong_sub_add j1 d hj1 hdM
    rwa [hmod] at this
  have hstate1 : (virt_rtc_read_time j1 sys).2.2.state = update_time j1 sys.state := rfl
  have hlj1 : (update_time j1 sys.state).last_jiffies = j1 % ULONG_MOD :=
    update_time_last_jiffies j1 sys.state
  have hexact : (virt_rtc_read_time (j1 + d) (virt_rtc_read_time j1 sys).2.2).2.2.state.last_time =
      (virt_rtc_read_time j1 sys).2.2.state.last_time + (jiffies_to_nsecs d : Int) := by
    show (update_time (j1 + d) (update_time j1 sys.state)).last_time =
      (update_time j1 sys.state).last_time + (jiffies_to_nsecs d : Int)
    simp only [update_time, ktime_add_ns, ulong_sub_mod_left]
    rw [show ulong_sub (j1 + d) (j1 % ULONG_MOD) = d from ?_]
    · rw [Nat.mod_eq_of_lt hj1]
      exact hdelta
  refine ⟨hexact, ?_, ?_⟩
  all_goals {
    have hb1 := rtc_ktime_to_tm_bracket (virt_rtc_read_time j1 sys).2.2.state.last_time
    have hb2 := rtc_ktime_to_tm_bracket
      (virt_rtc_read_time (j1 + d) (virt_rtc_read_time j1 sys).2.2).2.2.state.last_time
    have htm1 : (virt_rtc_read_time j1 sys).2.1 =
      rtc_ktime_to_tm (virt_rtc_read_time j1 sys).2.2.state.last_time := rfl
    have htm2 : (virt_rtc_read_time (j1 + d) (virt_rtc_read_time j1 sys).2.2).2.1 =
      rtc_ktime_to_tm
        (virt_rtc_read_time (j1 + d) (virt_rtc_read_time j1 sys).2.2).2.2.state.last_time := rfl
    rw [htm1, htm2, hexact]
    rw [hexact] at hb2
    simp only [NSEC_PER_SEC] at hb1 hb2 ⊢
    omega
  }

/-- C2 witness: starting from the initial state with the counter at 0,
reading at tick 0 and again at tick 100 (one second later) gives an exact
nanosecond advance of one second and second-level results within one
second of it. -/
theorem c2_accumulation_witness :
    (0 + 100 < ULONG_MOD) ∧
      ((virt_rtc_read_time (0 + 100) (virt_rtc_read_time 0 ⟨⟨0, 0⟩, 0⟩).2.2).2.2.state.last_time =
          (virt_rtc_read_time 0 ⟨⟨0, 0⟩, 0⟩).2.2.state.last_time + (jiffies_to_nsecs 100 : Int) ∧
        (virt_rtc_read_time (0 + 100) (virt_rtc_read_time 0 ⟨⟨0, 0⟩, 0⟩).2.2).2.1.secs *
            (NSEC_PER_SEC : Int) <
          (virt_rtc_read_time 0 ⟨⟨0, 0⟩, 0⟩).2.1.secs * (NSEC_PER_SEC : Int) +
            (jiffies_to_nsecs 100 : Int) + (NSEC_PER_SEC : Int) ∧
        (virt_rtc_read_time 0 ⟨⟨0, 0⟩, 0⟩).2.1.secs * (NSEC_PER_SEC : Int) +
            (jiffies_to_nsecs 100 : Int) <
          (virt_rtc_read_time (0 + 100) (virt_rtc_read_time 0 ⟨⟨0, 0⟩, 0⟩).2.2).2.1.secs *
            (NSEC_PER_SEC : Int) + (NSEC_PER_SEC : Int)) :=
  ⟨by rw [ULONG_MOD_eq]; omega, c2_accumulation ⟨⟨0, 0⟩, 0⟩ 0 100 (by rw [ULONG_MOD_eq]; omega)⟩

/-- A later `read_time` never reports an earlier instant than the read
before it: the commit only ever adds a nonnegative duration. -/
theorem read_result_mono (j j' : Nat) (sys : Sys) :
    (virt_rtc_read_time j sys).2.1.secs ≤
      (virt_rtc_read_time j' (virt_rtc_read_time j sys).2.2).2.1.secs := by
  show (rtc_ktime_to_tm (update_time j sys.state).last_time).secs ≤
    (rtc_ktime_to_tm (update_time j' (update_time j sys.state)).last_time).secs
  exact rtc_ktime_to_tm_mono (update_time_le _ _)

/-- The first element of a run of `read_time` results is the result of the
first call. -/
theorem readResults_head (j : Nat) (sys : Sys) (ds : List Nat) :
    (readResults j sys ds).head? = some (virt_rtc_read_time j sys).2.1.secs := by
  cases ds <;> rfl

/-- C5: over a monotonically advancing (possibly wrapping) tick counter
with each inter-read advance below one full wraparound period, the
sequence of instants returned by successive `read_time` calls (with no
intervening `set_time`) is non-decreasing. -/
theorem c5_monotonicity (sys : Sys) (j : Nat) (ds : List Nat)
    (hds : ∀ d ∈ ds, d < ULONG_MOD) :
    List.Chain' (fun a b => a ≤ b) (readResults j sys ds) := by
  induction ds generalizing j sys with
  | nil => exact List.chain'_singleton _
  | cons d ds ih =>
      have hcons : readResults j sys (d :: ds) =
          (virt_rtc_read_time j sys).2.1.secs ::
            readResults (j + d) (virt_rtc_read_time j sys).2.2 ds := rfl
      rw [hcons]
      refine List.chain'_cons'.2 ⟨?_, ih _ _ (fun x hx => hds x (List.mem_cons_of_mem d hx))⟩
      intro y hy
      rw [readResults_head] at hy
      rw [← Option.mem_some_iff.mp hy]
      exact read_result_mono j (j + d) sys

/-- C5 witness: three reads at ticks 0, 3 and 503 from the initial state
give a non-decreasing result sequence. -/
theorem c5_monotonicity_witness :
    (∀ d ∈ [3, 500], d < ULONG_MOD) ∧
      List.Chain' (fun a b => a ≤ b) (readResults 0 ⟨⟨0, 0⟩, 0⟩ [3, 500]) :=
  ⟨by decide, c5_monotonicity ⟨⟨0, 0⟩, 0⟩ 0 [3, 500] (by decide)⟩
